import Mathlib

/-!
Verification of the allocated task-storage strategy of the embassy raw
executor (`embassy-executor/src/raw/alloc_task.rs`).

The development shallowly embeds `AllocTaskStorage` for a single task:
the task header's atomic state word (bits `STATE_SPAWNED` and
`STATE_RUN_QUEUED`), the `Arc` strong reference count, the `UninitCell`
holding the future, the erased `poll_fn` pointer, and (for the
integrated-timers configuration) the `expires_at` slot.  Each Rust
function of the file becomes a Lean function on a system state `Sys`
that also emits a trace of primitive events in source order, so that
ordering claims (what happens before the future is polled, what the
completion epilogue writes) are expressible.  Interleavings of
clone/wake/drop/poll on one task are sequences of `Op` applied from the
freshly spawned state.
-/

namespace AllocTask

/-- Bit for "has a live, unfinished computation" in the task state word
(`STATE_SPAWNED` in the raw executor, bit 0). -/
def STATE_SPAWNED : Nat := 1

/-- Bit for "is currently present in the ready queue"
(`STATE_RUN_QUEUED` in the raw executor, bit 1). -/
def STATE_RUN_QUEUED : Nat := 2

/-- Bitwise complement on a 32-bit word, the Rust `!` operator on `u32`;
used to embed `fetch_and(!STATE_SPAWNED)` and the run-queue clear. -/
def not32 (x : Nat) : Nat := 0xFFFFFFFF ^^^ x

/-- The `embassy_time::Instant::MAX` sentinel ("never"), `u64::MAX` ticks. -/
def instantMAX : Nat := 2 ^ 64 - 1

/-- Primitive events emitted by the embedded operations, in source order. -/
inductive Event where
  /-- The `Arc::new` allocation of a fresh `AllocTaskStorage` succeeded. -/
  | alloc : Event
  /-- The future-constructing closure was invoked
  (`storage.future.write_in_place(future)`). -/
  | construct : Event
  /-- An `Arc::increment_strong_count` / `Arc` clone. -/
  | refIncr : Event
  /-- An `Arc::decrement_strong_count` / `Arc` drop of a waker reference. -/
  | refDecr : Event
  /-- The drop of the `this : Arc<Self>` local at the end of `poll`,
  releasing the reference taken over from the consumed queue entry. -/
  | releaseTaskRef : Event
  /-- The call `future.poll(&mut cx)`. -/
  | futurePoll : Event
  /-- The call `this.future.drop_in_place()`. -/
  | dropFuture : Event
  /-- The write `state.fetch_and(!STATE_SPAWNED)`. -/
  | clearSpawned : Event
  /-- A write of `v` to the `expires_at` slot. -/
  | setExpiry : Nat → Event
  /-- Insertion of the task into the ready queue. -/
  | enqueue : Event
  deriving DecidableEq, Repr

/-- The state of one `AllocTaskStorage` task and its surroundings:
`state` is the atomic `u32` state word; `rc` the `Arc` strong count;
`futureLive` whether the `UninitCell` holds an initialized future;
`pollFnSet` whether `poll_fn` holds `Some(AllocTaskStorage::poll)`;
`expiresAt` the timer slot; `wakers` the number of outstanding waker
handles held by external wake sources; `freed` whether the `Arc` has
deallocated the storage, and `freeCount` how many times it did. -/
structure Sys where
  state : Nat
  rc : Nat
  futureLive : Bool
  pollFnSet : Bool
  expiresAt : Nat
  wakers : Nat
  freed : Bool
  freeCount : Nat
  deriving DecidableEq, Repr

/-- The task is marked present in the ready queue (`STATE_RUN_QUEUED` set). -/
def queuedB (s : Sys) : Bool := s.state.testBit 1

/-- The task holds a live, unfinished computation (`STATE_SPAWNED` set). -/
def spawnedB (s : Sys) : Bool := s.state.testBit 0

/-- Number of ready-queue entries implied by the state word (0 or 1). -/
def qNat (s : Sys) : Nat := if queuedB s then 1 else 0

/-- Semantics of one `Arc` strong-count decrement
(`Arc::decrement_strong_count`, or an `Arc` value going out of scope):
when the count reaches zero the storage is deallocated unconditionally;
no destructor runs for the `UninitCell` payload, so `futureLive` is not
cleared by the deallocation. -/
def decRef (s : Sys) : Sys :=
  let rc := s.rc - 1
  if rc = 0 then
    { s with rc := 0, freed := true, freeCount := s.freeCount + 1 }
  else
    { s with rc := rc }

/-- An `Arc` strong-count increment (`Arc::increment_strong_count`). -/
def incRef (s : Sys) : Sys := { s with rc := s.rc + 1 }

/-- Modelled from the spec: `wake_task` (the run-queue insertion helper of
the raw executor, not part of the visible source): atomically set
`RUN_QUEUED`; if it was already set this is a no-op, otherwise insert the
task into the ready queue.  It does not touch the reference count. -/
def wakeTask (s : Sys) : Sys × List Event :=
  if queuedB s then
    (s, [])
  else
    ({ s with state := s.state ||| STATE_RUN_QUEUED }, [Event.enqueue])

/-- Embeds `AllocTaskStorage::waker_clone`: increment the strong count and
hand out one more waker carrying that reference. -/
def waker_clone (s : Sys) : Sys × List Event :=
  (incRef { s with wakers := s.wakers + 1 }, [Event.refIncr])

/-- Embeds `AllocTaskStorage::waker_drop`: decrement the strong count
(`Arc::decrement_strong_count`); the consumed waker handle is gone. -/
def waker_drop (s : Sys) : Sys × List Event :=
  (decRef { s with wakers := s.wakers - 1 }, [Event.refDecr])

/-- Embeds `AllocTaskStorage::waker_wake_by_ref`: increment the strong
count, then call `wake_task`; the caller keeps its waker handle. -/
def waker_wake_by_ref (s : Sys) : Sys × List Event :=
  let s1 := incRef s
  ((wakeTask s1).1, Event.refIncr :: (wakeTask s1).2)

/-- Embeds `AllocTaskStorage::waker_wake`: call `wake_task` with no count
change; the consumed waker's own reference becomes the queue entry's. -/
def waker_wake (s : Sys) : Sys × List Event :=
  wakeTask { s with wakers := s.wakers - 1 }

/-- Embeds `AllocTaskStorage::poll`, preceded by the executor's poll
prologue (modelled from the spec: the drain clears `RUN_QUEUED` before
invoking the erased poll operation and hands the consumed queue entry's
reference to `poll`).  In `poll` itself, in source order:
`Arc::from_raw` takes over that reference with no count change;
`this.waker()` clones the `Arc` to build the `Context` waker; polling the
future may hand out `k` waker clones to external wake sources; on
`Poll::Ready` the future is dropped in place, `SPAWNED` is cleared with
`fetch_and(!STATE_SPAWNED)` and `expires_at` is set to `Instant::MAX`;
finally the scope ends, dropping the local waker and then `this`. -/
def poll (ready : Bool) (k : Nat) (s : Sys) : Sys × List Event :=
  let s1 := { s with state := s.state &&& not32 STATE_RUN_QUEUED }
  let s2 := incRef s1
  let s3 := { s2 with rc := s2.rc + k, wakers := s2.wakers + k }
  let (s4, tr4) :=
    if ready then
      let sa := { s3 with futureLive := false }
      let sb := { sa with state := sa.state &&& not32 STATE_SPAWNED }
      let sc := { sb with expiresAt := instantMAX }
      (sc, [Event.dropFuture, Event.clearSpawned, Event.setExpiry instantMAX])
    else
      (s3, [])
  let s5 := decRef s4
  let s6 := decRef s5
  (s6, [Event.refIncr, Event.futurePoll] ++ List.replicate k Event.refIncr
    ++ tr4 ++ [Event.refDecr, Event.releaseTaskRef])

/-- The operations whose interleavings on one task we quantify over:
cloning an outstanding waker, dropping one, waking by reference, waking
by value, and one executor poll (with the polled future reporting
readiness `ready` and handing out `k` waker clones). -/
inductive Op where
  | cloneW : Op
  | dropW : Op
  | wakeByRef : Op
  | wakeByVal : Op
  | poll : Bool → Nat → Op
  deriving DecidableEq, Repr

/-- Whether an operation is enabled in state `s`: freed storage has no
live handles at all; waker operations need an outstanding waker; the
executor polls only tasks it drained from the ready queue. -/
def enabled (s : Sys) (op : Op) : Bool :=
  !s.freed &&
    match op with
    | Op.cloneW => 1 ≤ s.wakers
    | Op.dropW => 1 ≤ s.wakers
    | Op.wakeByRef => 1 ≤ s.wakers
    | Op.wakeByVal => 1 ≤ s.wakers
    | Op.poll _ _ => queuedB s

/-- One step: apply an operation if it is enabled, also yielding the
emitted event trace; a disabled operation does nothing. -/
def applyOp (s : Sys) (op : Op) : Sys × List Event :=
  if enabled s op then
    match op with
    | Op.cloneW => waker_clone s
    | Op.dropW => waker_drop s
    | Op.wakeByRef => waker_wake_by_ref s
    | Op.wakeByVal => waker_wake s
    | Op.poll ready k => poll ready k s
  else
    (s, [])

/-- The state immediately after a successful `AllocTaskStorage::spawn`
whose token has been committed: the header literal sets the state word to
`STATE_SPAWNED | STATE_RUN_QUEUED`, `poll_fn` to `Some(poll)` and
`expires_at` to `Instant::from_ticks(0)`; `Arc::new` yields strong count
1 and `Arc::into_raw` attaches that reference to the queue entry. -/
def spawnSys : Sys :=
  { state := STATE_SPAWNED ||| STATE_RUN_QUEUED
  , rc := 1
  , futureLive := true
  , pollFnSet := true
  , expiresAt := 0
  , wakers := 0
  , freed := false
  , freeCount := 0 }

/-- Run a sequence of operations from the freshly spawned state. -/
def run (ops : List Op) : Sys := ops.foldl (fun s op => (applyOp s op).1) spawnSys

/-- Spawn-failure kinds surfaced when a spawn token is consumed.
Modelled from the spec: the taxonomy is `AlreadySpawned` (singleton/pool
only) and `PoolExhausted` (pool only). -/
inductive SpawnError where
  | alreadySpawned : SpawnError
  | poolExhausted : SpawnError
  deriving DecidableEq, Repr

/-- Modelled from the spec: a `SpawnToken` is a deferred result, either a
committed task or a poisoned token surfacing a failure kind when the
token is consumed.  `SpawnToken` itself lives outside the visible
source; `AllocTaskStorage::spawn` only ever builds the valid form. -/
inductive SpawnTokenM where
  | valid : Sys → SpawnTokenM
  | poisoned : SpawnError → SpawnTokenM
  deriving DecidableEq, Repr

/-- Embeds `AllocTaskStorage::spawn` (with token commit), parametrized by
whether the platform allocator succeeds: on success, `Arc::new` claims
fresh storage, the future-constructing closure runs once in place in it,
and the valid token carrying `spawnSys` is returned; on allocation
failure the platform's out-of-memory signal propagates (`none`) before
the closure is ever invoked. -/
def spawnCall (allocOk : Bool) : Option SpawnTokenM × List Event :=
  if allocOk then
    (some (SpawnTokenM.valid spawnSys),
      [Event.alloc, Event.construct, Event.setExpiry 0, Event.enqueue])
  else
    (none, [])

/-- The completion-branch state update of `poll`:
`state.fetch_and(!STATE_SPAWNED)` on the `u32` state word. -/
def completionStateUpdate (x : Nat) : Nat := x &&& not32 STATE_SPAWNED

/-- Count occurrences of one event in a trace. -/
def countE (e : Event) : List Event → Nat
  | [] => 0
  | e' :: tr => (if e' = e then 1 else 0) + countE e tr

/-- The claim C7 reads `poll` as releasing the consumed queue entry's
reference at the prologue: some `releaseTaskRef` occurs strictly before
the `futurePoll` event.  This decidable predicate states exactly that. -/
def releaseBeforeFuturePoll (tr : List Event) : Bool :=
  (tr.takeWhile (fun e => !(e = Event.futurePoll : Bool))).any
    (fun e => (e = Event.releaseTaskRef : Bool))

end AllocTask

namespace AllocTask

theorem testBit0_lor_runQueued (n : Nat) :
    (n ||| STATE_RUN_QUEUED).testBit 0 = n.testBit 0 := by
  rw [Nat.testBit_lor]
  have h : Nat.testBit STATE_RUN_QUEUED 0 = false := by decide
  rw [h, Bool.or_false]

theorem testBit1_lor_runQueued (n : Nat) :
    (n ||| STATE_RUN_QUEUED).testBit 1 = true := by
  rw [Nat.testBit_lor]
  have h : Nat.testBit STATE_RUN_QUEUED 1 = true := by decide
  rw [h, Bool.or_true]

theorem lor_runQueued_lt (n : Nat) (h : n < 4) : n ||| STATE_RUN_QUEUED < 4 := by
  have h2 : STATE_RUN_QUEUED < 2 ^ 2 := by decide
  exact Nat.or_lt_two_pow h h2

theorem testBit0_clear_runQueued (n : Nat) :
    (n &&& not32 STATE_RUN_QUEUED).testBit 0 = n.testBit 0 := by
  rw [Nat.testBit_land]
  have h : (not32 STATE_RUN_QUEUED).testBit 0 = true := by decide
  rw [h, Bool.and_true]

theorem testBit1_clear_runQueued (n : Nat) :
    (n &&& not32 STATE_RUN_QUEUED).testBit 1 = false := by
  rw [Nat.testBit_land]
  have h : (not32 STATE_RUN_QUEUED).testBit 1 = false := by decide
  rw [h, Bool.and_false]

theorem testBit0_clear_spawned (n : Nat) :
    (n &&& not32 STATE_SPAWNED).testBit 0 = false := by
  rw [Nat.testBit_land]
  have h : (not32 STATE_SPAWNED).testBit 0 = false := by decide
  rw [h, Bool.and_false]

theorem testBit1_clear_spawned (n : Nat) :
    (n &&& not32 STATE_SPAWNED).testBit 1 = n.testBit 1 := by
  rw [Nat.testBit_land]
  have h : (not32 STATE_SPAWNED).testBit 1 = true := by decide
  rw [h, Bool.and_true]

theorem and_lt_of_lt (n m : Nat) (h : n < 4) : n &&& m < 4 :=
  Nat.lt_of_le_of_lt Nat.and_le_left h

theorem decRef_free (s : Sys) (h : s.rc - 1 = 0) :
    decRef s = { s with rc := 0, freed := true, freeCount := s.freeCount + 1 } := by
  simp only [decRef]
  rw [if_pos h]

theorem decRef_live (s : Sys) (h : s.rc - 1 ≠ 0) :
    decRef s = { s with rc := s.rc - 1 } := by
  simp only [decRef]
  rw [if_neg h]

/-- The inductive invariant of the model: the erased poll pointer stays
set; only the two state bits are ever used; `SPAWNED` mirrors whether
the `UninitCell` holds a live future; the storage has been freed at most
once — exactly when the strong count reached zero, at which point no
waker handle and no queue entry survives — while an unfreed storage has
at least one strong reference per outstanding handle. -/
def inv (s : Sys) : Prop :=
  s.pollFnSet = true ∧ s.state < 4 ∧ spawnedB s = s.futureLive ∧
    (s.freed = true →
      s.freeCount = 1 ∧ s.rc = 0 ∧ s.wakers = 0 ∧ queuedB s = false) ∧
    (s.freed = false → s.freeCount = 0 ∧ s.wakers + qNat s ≤ s.rc)

theorem inv_spawnSys : inv spawnSys := by
  refine ⟨rfl, by decide, by decide, ?_, ?_⟩
  · intro hco
    exact Bool.noConfusion hco
  · intro _
    exact ⟨rfl, by decide⟩

theorem inv_step_clone (st rc : Nat) (fl pf : Bool) (ex w fc : Nat)
    (hpf : pf = true) (hlt : st < 4) (hsf : Nat.testBit st 0 = fl) (hfc : fc = 0)
    (hcnt : w + (if Nat.testBit st 1 = true then 1 else 0) ≤ rc) :
    inv (waker_clone ⟨st, rc, fl, pf, ex, w, false, fc⟩).1 := by
  show inv ⟨st, rc + 1, fl, pf, ex, w + 1, false, fc⟩
  refine ⟨hpf, hlt, hsf, ?_, ?_⟩
  · intro hco
    exact Bool.noConfusion hco
  · intro _
    refine ⟨hfc, ?_⟩
    show w + 1 + (if Nat.testBit st 1 = true then 1 else 0) ≤ rc + 1
    omega

theorem inv_step_drop (st rc : Nat) (fl pf : Bool) (ex w fc : Nat)
    (hpf : pf = true) (hlt : st < 4) (hsf : Nat.testBit st 0 = fl) (hfc : fc = 0)
    (hcnt : w + (if Nat.testBit st 1 = true then 1 else 0) ≤ rc)
    (hw : 1 ≤ w) :
    inv (waker_drop ⟨st, rc, fl, pf, ex, w, false, fc⟩).1 := by
  show inv (decRef ⟨st, rc, fl, pf, ex, w - 1, false, fc⟩)
  by_cases hz : rc - 1 = 0
  · rw [decRef_free _ hz]
    refine ⟨hpf, hlt, hsf, ?_, ?_⟩
    · intro _
      have hq : Nat.testBit st 1 = false := by
        cases hq : Nat.testBit st 1 with
        | false => rfl
        | true => exfalso; rw [hq] at hcnt; simp at hcnt; omega
      rw [hq] at hcnt
      simp at hcnt
      refine ⟨?_, rfl, ?_, hq⟩
      · show fc + 1 = 1
        omega
      · show w - 1 = 0
        omega
    · intro hco
      exact Bool.noConfusion hco
  · rw [decRef_live _ hz]
    refine ⟨hpf, hlt, hsf, ?_, ?_⟩
    · intro hco
      exact Bool.noConfusion hco
    · intro _
      refine ⟨hfc, ?_⟩
      show w - 1 + (if Nat.testBit st 1 = true then 1 else 0) ≤ rc - 1
      omega

theorem inv_step_wakeByRef (st rc : Nat) (fl pf : Bool) (ex w fc : Nat)
    (hpf : pf = true) (hlt : st < 4) (hsf : Nat.testBit st 0 = fl) (hfc : fc = 0)
    (hcnt : w + (if Nat.testBit st 1 = true then 1 else 0) ≤ rc) :
    inv (waker_wake_by_ref ⟨st, rc, fl, pf, ex, w, false, fc⟩).1 := by
  show inv (wakeTask ⟨st, rc + 1, fl, pf, ex, w, false, fc⟩).1
  rw [wakeTask]
  by_cases hq : Nat.testBit st 1 = true
  · rw [if_pos (show queuedB ⟨st, rc + 1, fl, pf, ex, w, false, fc⟩ = true from hq)]
    refine ⟨hpf, hlt, hsf, ?_, ?_⟩
    · intro hco
      exact Bool.noConfusion hco
    · intro _
      refine ⟨hfc, ?_⟩
      show w + (if Nat.testBit st 1 = true then 1 else 0) ≤ rc + 1
      omega
  · rw [if_neg (show ¬ queuedB ⟨st, rc + 1, fl, pf, ex, w, false, fc⟩ = true from hq)]
    refine ⟨hpf, lor_runQueued_lt st hlt, ?_, ?_, ?_⟩
    · show Nat.testBit (st ||| STATE_RUN_QUEUED) 0 = fl
      rw [testBit0_lor_runQueued]
      exact hsf
    · intro hco
      exact Bool.noConfusion hco
    · intro _
      refine ⟨hfc, ?_⟩
      show w + (if Nat.testBit (st ||| STATE_RUN_QUEUED) 1 = true then 1 else 0) ≤ rc + 1
      rw [testBit1_lor_runQueued]
      rw [Bool.not_eq_true] at hq
      rw [hq] at hcnt
      simp at hcnt ⊢
      omega

theorem inv_step_wakeByVal (st rc : Nat) (fl pf : Bool) (ex w fc : Nat)
    (hpf : pf = true) (hlt : st < 4) (hsf : Nat.testBit st 0 = fl) (hfc : fc = 0)
    (hcnt : w + (if Nat.testBit st 1 = true then 1 else 0) ≤ rc)
    (hw : 1 ≤ w) :
    inv (waker_wake ⟨st, rc, fl, pf, ex, w, false, fc⟩).1 := by
  show inv (wakeTask ⟨st, rc, fl, pf, ex, w - 1, false, fc⟩).1
  rw [wakeTask]
  by_cases hq : Nat.testBit st 1 = true
  · rw [if_pos (show queuedB ⟨st, rc, fl, pf, ex, w - 1, false, fc⟩ = true from hq)]
    refine ⟨hpf, hlt, hsf, ?_, ?_⟩
    · intro hco
      exact Bool.noConfusion hco
    · intro _
      refine ⟨hfc, ?_⟩
      show w - 1 + (if Nat.testBit st 1 = true then 1 else 0) ≤ rc
      omega
  · rw [if_neg (show ¬ queuedB ⟨st, rc, fl, pf, ex, w - 1, false, fc⟩ = true from hq)]
    refine ⟨hpf, lor_runQueued_lt st hlt, ?_, ?_, ?_⟩
    · show Nat.testBit (st ||| STATE_RUN_QUEUED) 0 = fl
      rw [testBit0_lor_runQueued]
      exact hsf
    · intro hco
      exact Bool.noConfusion hco
    · intro _
      refine ⟨hfc, ?_⟩
      show w - 1 + (if Nat.testBit (st ||| STATE_RUN_QUEUED) 1 = true then 1 else 0) ≤ rc
      rw [testBit1_lor_runQueued]
      rw [Bool.not_eq_true] at hq
      rw [hq] at hcnt
      simp at hcnt ⊢
      omega

theorem inv_step_poll (ready : Bool) (k : Nat) (st rc : Nat) (fl pf : Bool)
    (ex w fc : Nat)
    (hpf : pf = true) (hlt : st < 4) (hsf : Nat.testBit st 0 = fl) (hfc : fc = 0)
    (hcnt : w + (if Nat.testBit st 1 = true then 1 else 0) ≤ rc)
    (hq : Nat.testBit st 1 = true) :
    inv (poll ready k ⟨st, rc, fl, pf, ex, w, false, fc⟩).1 := by
  have hw1 : w + 1 ≤ rc := by
    rw [hq] at hcnt
    simpa using hcnt
  cases ready with
  | false =>
    show inv (decRef (decRef
      ⟨st &&& not32 STATE_RUN_QUEUED, rc + 1 + k, fl, pf, ex, w + k, false, fc⟩))
    rw [decRef_live
      ⟨st &&& not32 STATE_RUN_QUEUED, rc + 1 + k, fl, pf, ex, w + k, false, fc⟩
      (show ¬ (rc + 1 + k - 1 = 0) by omega)]
    by_cases hz : rc + 1 + k - 1 - 1 = 0
    · rw [decRef_free _ hz]
      refine ⟨hpf, ?_, ?_, ?_, ?_⟩
      · show st &&& not32 STATE_RUN_QUEUED < 4
        exact and_lt_of_lt st _ hlt
      · show Nat.testBit (st &&& not32 STATE_RUN_QUEUED) 0 = fl
        rw [testBit0_clear_runQueued]
        exact hsf
      · intro _
        refine ⟨?_, rfl, ?_, ?_⟩
        · show fc + 1 = 1
          omega
        · show w + k = 0
          omega
        · show Nat.testBit (st &&& not32 STATE_RUN_QUEUED) 1 = false
          exact testBit1_clear_runQueued st
      · intro hco
        exact Bool.noConfusion hco
    · rw [decRef_live _ hz]
      refine ⟨hpf, ?_, ?_, ?_, ?_⟩
      · show st &&& not32 STATE_RUN_QUEUED < 4
        exact and_lt_of_lt st _ hlt
      · show Nat.testBit (st &&& not32 STATE_RUN_QUEUED) 0 = fl
        rw [testBit0_clear_runQueued]
        exact hsf
      · intro hco
        exact Bool.noConfusion hco
      · intro _
        refine ⟨hfc, ?_⟩
        show w + k +
          (if Nat.testBit (st &&& not32 STATE_RUN_QUEUED) 1 = true then 1 else 0)
          ≤ rc + 1 + k - 1 - 1
        rw [testBit1_clear_runQueued]
        simp only [Bool.false_eq_true, if_false]
        omega
  | true =>
    show inv (decRef (decRef
      ⟨(st &&& not32 STATE_RUN_QUEUED) &&& not32 STATE_SPAWNED, rc + 1 + k,
        false, pf, instantMAX, w + k, false, fc⟩))
    rw [decRef_live
      ⟨(st &&& not32 STATE_RUN_QUEUED) &&& not32 STATE_SPAWNED, rc + 1 + k,
        false, pf, instantMAX, w + k, false, fc⟩
      (show ¬ (rc + 1 + k - 1 = 0) by omega)]
    by_cases hz : rc + 1 + k - 1 - 1 = 0
    · rw [decRef_free _ hz]
      refine ⟨hpf, ?_, ?_, ?_, ?_⟩
      · show (st &&& not32 STATE_RUN_QUEUED) &&& not32 STATE_SPAWNED < 4
        exact and_lt_of_lt _ _ (and_lt_of_lt st _ hlt)
      · show Nat.testBit ((st &&& not32 STATE_RUN_QUEUED) &&& not32 STATE_SPAWNED) 0
          = false
        exact testBit0_clear_spawned _
      · intro _
        refine ⟨?_, rfl, ?_, ?_⟩
        · show fc + 1 = 1
          omega
        · show w + k = 0
          omega
        · show Nat.testBit ((st &&& not32 STATE_RUN_QUEUED) &&& not32 STATE_SPAWNED) 1
            = false
          rw [testBit1_clear_spawned]
          exact testBit1_clear_runQueued st
      · intro hco
        exact Bool.noConfusion hco
    · rw [decRef_live _ hz]
      refine ⟨hpf, ?_, ?_, ?_, ?_⟩
      · show (st &&& not32 STATE_RUN_QUEUED) &&& not32 STATE_SPAWNED < 4
        exact and_lt_of_lt _ _ (and_lt_of_lt st _ hlt)
      · show Nat.testBit ((st &&& not32 STATE_RUN_QUEUED) &&& not32 STATE_SPAWNED) 0
          = false
        exact testBit0_clear_spawned _
      · intro hco
        exact Bool.noConfusion hco
      · intro _
        refine ⟨hfc, ?_⟩
        show w + k +
          (if Nat.testBit ((st &&& not32 STATE_RUN_QUEUED) &&& not32 STATE_SPAWNED) 1
            = true then 1 else 0)
          ≤ rc + 1 + k - 1 - 1
        rw [testBit1_clear_spawned, testBit1_clear_runQueued]
        simp only [Bool.false_eq_true, if_false]
        omega

theorem inv_applyOp (s : Sys) (op : Op) (h : inv s) : inv (applyOp s op).1 := by
  obtain ⟨st, rc, fl, pf, ex, w, fr, fc⟩ := s
  by_cases he : enabled ⟨st, rc, fl, pf, ex, w, fr, fc⟩ op
  case neg =>
    rw [applyOp.eq_def, if_neg he]
    exact h
  case pos =>
    rw [applyOp.eq_def, if_pos he]
    obtain ⟨hpf, hlt, hsf, hfree, hlive⟩ := h
    cases fr with
    | true =>
      simp [enabled] at he
    | false =>
      obtain ⟨hfc, hcnt⟩ := hlive rfl
      cases op with
      | cloneW =>
        exact inv_step_clone st rc fl pf ex w fc hpf hlt hsf hfc hcnt
      | dropW =>
        have hw : 1 ≤ w := by simpa [enabled] using he
        exact inv_step_drop st rc fl pf ex w fc hpf hlt hsf hfc hcnt hw
      | wakeByRef =>
        exact inv_step_wakeByRef st rc fl pf ex w fc hpf hlt hsf hfc hcnt
      | wakeByVal =>
        have hw : 1 ≤ w := by simpa [enabled] using he
        exact inv_step_wakeByVal st rc fl pf ex w fc hpf hlt hsf hfc hcnt hw
      | poll ready k =>
        have hq : Nat.testBit st 1 = true := by simpa [enabled, queuedB] using he
        exact inv_step_poll ready k st rc fl pf ex w fc hpf hlt hsf hfc hcnt hq

theorem inv_foldl (l : List Op) (s : Sys) (hs : inv s) :
    inv (l.foldl (fun s op => (applyOp s op).1) s) := by
  induction l generalizing s with
  | nil => exact hs
  | cons op l ih => exact ih _ (inv_applyOp s op hs)

theorem inv_run (ops : List Op) : inv (run ops) :=
  inv_foldl ops spawnSys inv_spawnSys

theorem decRef_futureLive (s : Sys) : (decRef s).futureLive = s.futureLive := by
  simp only [decRef]
  split_ifs <;> rfl

theorem decRef_state (s : Sys) : (decRef s).state = s.state := by
  simp only [decRef]
  split_ifs <;> rfl

theorem decRef_expiresAt (s : Sys) : (decRef s).expiresAt = s.expiresAt := by
  simp only [decRef]
  split_ifs <;> rfl

theorem wakeTask_rc (s : Sys) : (wakeTask s).1.rc = s.rc := by
  simp only [wakeTask]
  split_ifs <;> rfl

theorem wakeTask_wakers (s : Sys) : (wakeTask s).1.wakers = s.wakers := by
  simp only [wakeTask]
  split_ifs <;> rfl

theorem wakeTask_tr_queued (s : Sys) (h : queuedB s = true) :
    (wakeTask s).2 = [] := by
  simp only [wakeTask]
  rw [if_pos h]

theorem wakeTask_tr_not_queued (s : Sys) (h : queuedB s = false) :
    (wakeTask s).2 = [Event.enqueue] := by
  simp only [wakeTask]
  rw [if_neg (by simp [h])]

theorem countE_append (e : Event) (l1 l2 : List Event) :
    countE e (l1 ++ l2) = countE e l1 + countE e l2 := by
  induction l1 with
  | nil => simp [countE]
  | cons a l ih =>
    show (if a = e then 1 else 0) + countE e (l ++ l2)
      = (if a = e then 1 else 0) + countE e l + countE e l2
    rw [ih]
    omega

theorem countE_replicate (e e' : Event) (k : Nat) (h : ¬ e' = e) :
    countE e (List.replicate k e') = 0 := by
  induction k with
  | zero => rfl
  | succ n ih => simp [List.replicate_succ, countE, h, ih]

/-- C1 counterexample: in the interleaving "spawn; one poll returning
`Pending` that stores one waker clone; drop of that waker", the final
waker drop brings the `Arc` strong count to zero while the task's
computation is still live (`SPAWNED` set, future not destroyed), and the
storage is freed anyway — refuting the claim that a waker drop zeroing
the count never frees a storage still holding a live computation. -/
theorem C1_counterexample :
    (run [Op.poll false 1, Op.dropW]).freed = true ∧
    (run [Op.poll false 1, Op.dropW]).futureLive = true ∧
    spawnedB (run [Op.poll false 1, Op.dropW]) = true ∧
    (run [Op.poll false 1, Op.dropW]).rc = 0 := by decide

/-- C1 (amended): for allocated storage, over every interleaving of
clone/wake/drop/poll operations on one task, the storage is freed at
most once, and when it is freed the strong count is zero with no
outstanding waker handles — but freeing is tied to the count alone:
completion of the computation is not required (`waker_drop` is a bare
`Arc::decrement_strong_count` with no completion check). -/
theorem C1_freed_once_only_at_zero (ops : List Op) :
    (run ops).freeCount ≤ 1 ∧
    ((run ops).freed = true →
      (run ops).rc = 0 ∧ (run ops).freeCount = 1 ∧ (run ops).wakers = 0) := by
  obtain ⟨-, -, -, hfree, hlive⟩ := inv_run ops
  constructor
  · cases hfr : (run ops).freed with
    | true => exact Nat.le_of_eq (hfree hfr).1
    | false =>
      rw [(hlive hfr).1]
      omega
  · intro h
    obtain ⟨h1, h2, h3, -⟩ := hfree h
    exact ⟨h2, h1, h3⟩

/-- C1 witness: the amended theorem applied to the counterexample
interleaving, whose final state is freed. -/
theorem C1_witness :
    (run [Op.poll false 1, Op.dropW]).freeCount ≤ 1 ∧
    (run [Op.poll false 1, Op.dropW]).rc = 0 :=
  ⟨(C1_freed_once_only_at_zero [Op.poll false 1, Op.dropW]).1,
    ((C1_freed_once_only_at_zero [Op.poll false 1, Op.dropW]).2 (by decide)).1⟩

/-- C2: `AllocTaskStorage::spawn` always allocates and commits a fresh
instance; whenever it returns a token (the platform allocator did not
fail), that token is never a poisoned one, so no spawn of allocated
storage can surface `AlreadySpawned` (nor any other failure kind). -/
theorem C2_spawn_never_poisoned (ok : Bool) (tok : SpawnTokenM) (e : SpawnError)
    (h : (spawnCall ok).1 = some tok) :
    tok ≠ SpawnTokenM.poisoned e := by
  cases ok with
  | true =>
    have htok : tok = SpawnTokenM.valid spawnSys := by
      have h2 : some (SpawnTokenM.valid spawnSys) = some tok := h
      exact (Option.some.inj h2).symm
    rw [htok]
    intro hco
    exact SpawnTokenM.noConfusion hco
  | false =>
    exact absurd h (by simp [spawnCall])

/-- C2 witness: the only token `spawnCall` ever returns is the valid one,
and it is not poisoned with `AlreadySpawned`. -/
theorem C2_witness :
    SpawnTokenM.valid spawnSys ≠ SpawnTokenM.poisoned SpawnError.alreadySpawned :=
  C2_spawn_never_poisoned true (SpawnTokenM.valid spawnSys)
    SpawnError.alreadySpawned rfl

/-- C4 counterexample: after a poll that completes the task, `SPAWNED` is
cleared but `poll_fn` still holds `Some(AllocTaskStorage::poll)` — the
completion branch of `poll` contains no write to `poll_fn`, refuting the
claim that completion resets the poll pointer. -/
theorem C4_counterexample :
    spawnedB (run [Op.poll true 0]) = false ∧
    (run [Op.poll true 0]).pollFnSet = true := by decide

/-- C4 (amended): spawn sets `SPAWNED` together with a set `poll_fn`
(`Some(AllocTaskStorage::poll)`), and the poll pointer is never written
again by any operation: it remains set in every reachable state, also
after completion has cleared `SPAWNED`.  The "invalid once `SPAWNED`
clears" reading is a caller contract, not a performed reset. -/
theorem C4_pollFn_always_set (ops : List Op) : (run ops).pollFnSet = true :=
  (inv_run ops).1

/-- C3: whenever the erased poll operation observes `Poll::Ready`, it
performs exactly the completion epilogue: the computation value is
destroyed in place (`drop_in_place`, once), the `SPAWNED` bit is cleared
(once), and the expiry slot is written once with the "never" sentinel
`Instant::MAX` — and the resulting state shows the future gone,
`SPAWNED` clear and the expiry at the sentinel. -/
theorem C3_completion_epilogue (s : Sys) (k : Nat) :
    (poll true k s).1.futureLive = false ∧
    spawnedB (poll true k s).1 = false ∧
    (poll true k s).1.expiresAt = instantMAX ∧
    countE Event.dropFuture (poll true k s).2 = 1 ∧
    countE Event.clearSpawned (poll true k s).2 = 1 ∧
    countE (Event.setExpiry instantMAX) (poll true k s).2 = 1 := by
  obtain ⟨st, rc, fl, pf, ex, w, fr, fc⟩ := s
  have hst : (poll true k ⟨st, rc, fl, pf, ex, w, fr, fc⟩).1
      = decRef (decRef ⟨(st &&& not32 STATE_RUN_QUEUED) &&& not32 STATE_SPAWNED,
        rc + 1 + k, false, pf, instantMAX, w + k, fr, fc⟩) := rfl
  have htr : (poll true k ⟨st, rc, fl, pf, ex, w, fr, fc⟩).2
      = [Event.refIncr, Event.futurePoll] ++ List.replicate k Event.refIncr
        ++ [Event.dropFuture, Event.clearSpawned, Event.setExpiry instantMAX]
        ++ [Event.refDecr, Event.releaseTaskRef] := rfl
  refine ⟨?_, ?_, ?_, ?_, ?_, ?_⟩
  · rw [hst, decRef_futureLive, decRef_futureLive]
  · simp only [spawnedB]
    rw [hst, decRef_state, decRef_state]
    exact testBit0_clear_spawned _
  · rw [hst, decRef_expiresAt, decRef_expiresAt]
  · rw [htr, countE_append, countE_append, countE_append,
      countE_replicate _ _ k (by decide)]
    decide
  · rw [htr, countE_append, countE_append, countE_append,
      countE_replicate _ _ k (by decide)]
    decide
  · rw [htr, countE_append, countE_append, countE_append,
      countE_replicate _ _ k (by decide)]
    decide

/-- C5: `waker_wake_by_ref` first increments the strong count by exactly
one and then performs the ready-queue insertion via `wake_task`; the
caller's waker handle survives (outstanding-waker count unchanged), and
when the task was not yet queued the insertion takes place after the
increment. -/
theorem C5_wake_by_ref_increments_then_inserts (s : Sys) :
    (waker_wake_by_ref s).1.rc = s.rc + 1 ∧
    (waker_wake_by_ref s).1.wakers = s.wakers ∧
    (waker_wake_by_ref s).2.head? = some Event.refIncr ∧
    (queuedB s = false →
      (waker_wake_by_ref s).2 = [Event.refIncr, Event.enqueue]) := by
  refine ⟨?_, ?_, rfl, ?_⟩
  · rw [show (waker_wake_by_ref s).1 = (wakeTask (incRef s)).1 from rfl,
      wakeTask_rc]
    exact rfl
  · rw [show (waker_wake_by_ref s).1 = (wakeTask (incRef s)).1 from rfl,
      wakeTask_wakers]
    exact rfl
  · intro h
    have hq2 : queuedB (incRef s) = false := h
    rw [show (waker_wake_by_ref s).2
        = Event.refIncr :: (wakeTask (incRef s)).2 from rfl,
      wakeTask_tr_not_queued _ hq2]

/-- C5 witness: the theorem applied to the state reached after one
pending poll that handed out one waker, where the task is not queued. -/
theorem C5_witness :
    (waker_wake_by_ref (run [Op.poll false 1])).1.rc
      = (run [Op.poll false 1]).rc + 1 ∧
    (waker_wake_by_ref (run [Op.poll false 1])).2
      = [Event.refIncr, Event.enqueue] :=
  ⟨(C5_wake_by_ref_increments_then_inserts (run [Op.poll false 1])).1,
    (C5_wake_by_ref_increments_then_inserts (run [Op.poll false 1])).2.2.2
      (by decide)⟩

/-- C6: `waker_wake` (by value) performs the ready-queue insertion with
no increment and no decrement of the strong count: the count after
equals the count before, no reference-count event is emitted, and the
consumed waker handle is gone (its reference transfers to the queue
entry). -/
theorem C6_wake_by_value_preserves_count (s : Sys) :
    (waker_wake s).1.rc = s.rc ∧
    (waker_wake s).1.wakers = s.wakers - 1 ∧
    countE Event.refIncr (waker_wake s).2 = 0 ∧
    countE Event.refDecr (waker_wake s).2 = 0 := by
  refine ⟨?_, ?_, ?_, ?_⟩
  · rw [show (waker_wake s).1
        = (wakeTask { s with wakers := s.wakers - 1 }).1 from rfl, wakeTask_rc]
  · rw [show (waker_wake s).1
        = (wakeTask { s with wakers := s.wakers - 1 }).1 from rfl,
      wakeTask_wakers]
  · cases hq : queuedB { s with wakers := s.wakers - 1 } with
    | true =>
      rw [show (waker_wake s).2
          = (wakeTask { s with wakers := s.wakers - 1 }).2 from rfl,
        wakeTask_tr_queued _ hq]
      rfl
    | false =>
      rw [show (waker_wake s).2
          = (wakeTask { s with wakers := s.wakers - 1 }).2 from rfl,
        wakeTask_tr_not_queued _ hq]
      decide
  · cases hq : queuedB { s with wakers := s.wakers - 1 } with
    | true =>
      rw [show (waker_wake s).2
          = (wakeTask { s with wakers := s.wakers - 1 }).2 from rfl,
        wakeTask_tr_queued _ hq]
      rfl
    | false =>
      rw [show (waker_wake s).2
          = (wakeTask { s with wakers := s.wakers - 1 }).2 from rfl,
        wakeTask_tr_not_queued _ hq]
      decide

/-- C7 counterexample: in a concrete poll (freshly spawned task, future
returns `Pending`, no clones), the queue-entry reference is released —
exactly one `releaseTaskRef` — but not at the prologue: no release
occurs before the `futurePoll` event, refuting the claim that the
reference is released before the future is polled. -/
theorem C7_counterexample :
    releaseBeforeFuturePoll (poll false 0 spawnSys).2 = false ∧
    countE Event.releaseTaskRef (poll false 0 spawnSys).2 = 1 ∧
    countE Event.futurePoll (poll false 0 spawnSys).2 = 1 := by decide

/-- C7 (amended): each invocation of the erased poll operation releases
exactly one task reference — the one taken over from the consumed
ready-queue entry by `Arc::from_raw` — and the releasing decrement
happens at the end of `poll` when the local `Arc` is dropped, after the
future is polled (never before), independent of the poll result. -/
theorem C7_release_once_at_end (s : Sys) (ready : Bool) (k : Nat) :
    countE Event.releaseTaskRef (poll ready k s).2 = 1 ∧
    countE Event.futurePoll (poll ready k s).2 = 1 ∧
    releaseBeforeFuturePoll (poll ready k s).2 = false := by
  cases ready with
  | false =>
    have htr : (poll false k s).2
        = [Event.refIncr, Event.futurePoll] ++ List.replicate k Event.refIncr
          ++ [] ++ [Event.refDecr, Event.releaseTaskRef] := rfl
    refine ⟨?_, ?_, ?_⟩
    · rw [htr, countE_append, countE_append, countE_append,
        countE_replicate _ _ k (by decide)]
      decide
    · rw [htr, countE_append, countE_append, countE_append,
        countE_replicate _ _ k (by decide)]
      decide
    · rfl
  | true =>
    have htr : (poll true k s).2
        = [Event.refIncr, Event.futurePoll] ++ List.replicate k Event.refIncr
          ++ [Event.dropFuture, Event.clearSpawned, Event.setExpiry instantMAX]
          ++ [Event.refDecr, Event.releaseTaskRef] := rfl
    refine ⟨?_, ?_, ?_⟩
    · rw [htr, countE_append, countE_append, countE_append,
        countE_replicate _ _ k (by decide)]
      decide
    · rw [htr, countE_append, countE_append, countE_append,
        countE_replicate _ _ k (by decide)]
      decide
    · rfl

/-- C8: the completion state update `fetch_and(!STATE_SPAWNED)` modifies
only the `SPAWNED` bit of the 32-bit state word: every other bit
(including `RUN_QUEUED`, bit 1) keeps exactly the value it had before
the write, and the `SPAWNED` bit is cleared. -/
theorem C8_completion_touches_only_spawned (x i : Nat)
    (hx : x < 2 ^ 32) (hi : i ≠ 0) :
    (completionStateUpdate x).testBit i = x.testBit i ∧
    (completionStateUpdate x).testBit 0 = false := by
  constructor
  · by_cases h32 : i < 32
    · have h1 : 1 ≤ i := Nat.one_le_iff_ne_zero.mpr hi
      have hm : (not32 STATE_SPAWNED).testBit i = true := by
        interval_cases i <;> decide
      show (x &&& not32 STATE_SPAWNED).testBit i = x.testBit i
      rw [Nat.testBit_land, hm, Bool.and_true]
    · have hge : 32 ≤ i := Nat.le_of_not_lt h32
      have hx2 : x < 2 ^ i :=
        Nat.lt_of_lt_of_le hx (Nat.pow_le_pow_right (by omega) hge)
      have hland : completionStateUpdate x < 2 ^ i :=
        Nat.lt_of_le_of_lt Nat.and_le_left hx2
      rw [Nat.testBit_eq_false_of_lt hx2, Nat.testBit_eq_false_of_lt hland]
  · exact testBit0_clear_spawned x

/-- C8 witness: the update applied to the state word `SPAWNED|RUN_QUEUED`
preserves bit 1 and clears bit 0. -/
theorem C8_witness :
    (completionStateUpdate 3).testBit 1 = (3 : Nat).testBit 1 ∧
    (completionStateUpdate 3).testBit 0 = false :=
  C8_completion_touches_only_spawned 3 1 (by decide) (by decide)

/-- C9: `AllocTaskStorage::spawn` establishes the spawned-task initial
condition: on allocator success the committed token carries the freshly
claimed state whose state word is exactly `SPAWNED|RUN_QUEUED`, the
future-constructing closure runs exactly once, and never before the
allocation (the claim) in the event trace; on allocator failure the
closure is never invoked. -/
theorem C9_spawn_initial_condition (ok : Bool) :
    (ok = true →
      (spawnCall ok).1 = some (SpawnTokenM.valid spawnSys) ∧
      spawnSys.state = (STATE_SPAWNED ||| STATE_RUN_QUEUED) ∧
      countE Event.construct (spawnCall ok).2 = 1 ∧
      countE Event.construct
        ((spawnCall ok).2.takeWhile (fun e => !(e = Event.alloc : Bool))) = 0) ∧
    (ok = false →
      (spawnCall ok).1 = none ∧
      countE Event.construct (spawnCall ok).2 = 0) := by
  cases ok with
  | true => exact ⟨fun _ => by decide, fun hco => Bool.noConfusion hco⟩
  | false => exact ⟨fun hco => Bool.noConfusion hco, fun _ => by decide⟩

/-- C9 witness: the theorem instantiated at both allocator outcomes. -/
theorem C9_witness :
    (spawnCall true).1 = some (SpawnTokenM.valid spawnSys) ∧
    countE Event.construct (spawnCall false).2 = 0 :=
  ⟨((C9_spawn_initial_condition true).1 rfl).1,
    ((C9_spawn_initial_condition false).2 rfl).2⟩

/-- C10: immediately after spawn (integrated timers) the expiry slot
holds tick 0 — not the "never" sentinel — and the sentinel
`Instant::MAX` is only ever written by the completion (`Poll::Ready`)
branch of the erased poll operation: no other operation's trace contains
a `setExpiry instantMAX` write. -/
theorem C10_expiry_zero_then_max_only_on_completion :
    spawnSys.expiresAt = 0 ∧
    (0 : Nat) ≠ instantMAX ∧
    countE (Event.setExpiry instantMAX) (spawnCall true).2 = 0 ∧
    ∀ (s : Sys) (op : Op), Event.setExpiry instantMAX ∈ (applyOp s op).2 →
      ∃ k, op = Op.poll true k := by
  refine ⟨rfl, by decide, by decide, ?_⟩
  intro s op hmem
  rw [applyOp.eq_def] at hmem
  by_cases he : enabled s op
  · rw [if_pos he] at hmem
    cases op with
    | cloneW => simp [waker_clone] at hmem
    | dropW => simp [waker_drop] at hmem
    | wakeByRef =>
      simp only [waker_wake_by_ref] at hmem
      cases hq : queuedB (incRef s) with
      | true =>
        rw [wakeTask_tr_queued _ hq] at hmem
        simp at hmem
      | false =>
        rw [wakeTask_tr_not_queued _ hq] at hmem
        simp at hmem
    | wakeByVal =>
      simp only [waker_wake] at hmem
      cases hq : queuedB { s with wakers := s.wakers - 1 } with
      | true =>
        rw [wakeTask_tr_queued _ hq] at hmem
        simp at hmem
      | false =>
        rw [wakeTask_tr_not_queued _ hq] at hmem
        simp at hmem
    | poll ready k =>
      cases ready with
      | true => exact ⟨k, rfl⟩
      | false =>
        have htr : (poll false k s).2
            = [Event.refIncr, Event.futurePoll] ++ List.replicate k Event.refIncr
              ++ [] ++ [Event.refDecr, Event.releaseTaskRef] := rfl
        rw [htr] at hmem
        simp [List.mem_append, List.mem_replicate] at hmem
  · rw [if_neg he] at hmem
    simp at hmem

/-- C10 witness: a completing poll is indeed a `Poll::Ready` poll. -/
theorem C10_witness : ∃ k, Op.poll true 0 = Op.poll true k :=
  C10_expiry_zero_then_max_only_on_completion.2.2.2 spawnSys (Op.poll true 0)
    (by decide)
